import Mathlib

/-!
Verification development for the avatar lip-sync core
(frontend/src/components/aura: RotatableAvatar.tsx / phonemeConvert,
AvatarLipSync.tsx, hooksChat/UseTTS.tsx, hooks/constantsLipsync).

Times and intensities are embedded as rationals; the JavaScript number
type is modelled by ℚ, so `Number.isFinite` is identically true and no
NaN/Infinity values arise.  JavaScript string keys of the form
"name@bucket.toFixed(2)" are modelled by the pair (name, bucket index),
an injective encoding of the same data.  `Array.prototype.sort` with a
numeric comparator is stable, hence modelled by a stable insertion sort
on the same key.  Unicode NFC normalization is the identity on the
composed IPA inputs handled here and is modelled as the identity.
-/

/-- WordTiming from hooks/constantsLipsync: word text, phoneme string,
relative-or-absolute start and end seconds. -/
structure WordTiming where
  word : String
  phoneme : String
  start : ℚ
  «end» : ℚ
deriving DecidableEq

/-- VisemeEvent from hooks/constantsLipsync.  The optional peak/attack/decay
fields are always populated by the allocator, so they are total here. -/
structure VisemeEvent where
  «at» : ℚ
  name : String
  duration : ℚ
  peak : ℚ
  attack : ℚ
  decay : ℚ
deriving DecidableEq

/-- ActiveEnv from hooks/constantsLipsync. -/
structure ActiveEnv where
  name : String
  timeLeft : ℚ
  total : ℚ
  peak : ℚ
  attack : ℚ
  decay : ℚ
deriving DecidableEq

/-- segStateRef payload: segment offset and last absolute end. -/
structure SegState where
  segOffset : ℚ
  lastAbsEnd : ℚ
deriving DecidableEq

/-- Dedup key of pushWordsToTimeline: viseme name plus the 10ms bucket index
(the code renders the bucket as a fixed-point string; the pair is an
injective encoding of the same information). -/
abbrev EventKey := String × ℤ

-- timing constants of phonemeConvert (RotatableAvatar.tsx)
def MIN_SLOT : ℚ := 1/10
def WORD_EVENT_CAP : ℕ := 4
def KEEP_AT_LEAST : ℕ := 2
def MIN_DUR : ℚ := 2/25
def MAX_DUR : ℚ := 9/50
def ATTACK : ℚ := 3/100
def DECAY : ℚ := 1/25
def SPLIT_OVERLAP : ℚ := 9/10
def EPS : ℚ := 1/200
def GAP_PAD : ℚ := 3/100
def HARD_RESET_BACKSTEP : ℚ := 4/5
def BUCKET : ℚ := 1/100
def MIN_EVENT_GAP : ℚ := 1/10
def MERGE_SAME_GAP : ℚ := 1/20
def MORPH_CAP : ℚ := 9/10

/-- C_MAP: consonant phoneme → viseme name. -/
def cMap : List (String × String) :=
  [("p","viseme_PP"), ("b","viseme_PP"), ("m","viseme_PP"),
   ("f","viseme_FF"), ("v","viseme_FF"),
   ("t","viseme_DD"), ("d","viseme_DD"), ("ɾ","viseme_DD"), ("ʔ","viseme_DD"),
   ("s","viseme_SS"), ("z","viseme_SS"), ("ʃ","viseme_SS"), ("ʒ","viseme_SS"),
   ("tʃ","viseme_CH"), ("dʒ","viseme_CH"),
   ("k","viseme_kk"), ("g","viseme_kk"),
   ("n","viseme_nn"), ("ŋ","viseme_nn"),
   ("l","viseme_RR"), ("r","viseme_RR"), ("ɹ","viseme_RR"),
   ("θ","viseme_TH"), ("ð","viseme_TH"),
   ("w","viseme_U"), ("j","viseme_I"), ("h","viseme_E")]

/-- V_MAP: vowel phoneme → viseme name. -/
def vMap : List (String × String) :=
  [("a","viseme_aa"), ("æ","viseme_aa"), ("ɑ","viseme_aa"), ("ɐ","viseme_aa"), ("ɒ","viseme_aa"),
   ("e","viseme_E"), ("ɛ","viseme_E"),
   ("i","viseme_I"), ("ɪ","viseme_I"),
   ("o","viseme_O"), ("ɔ","viseme_O"),
   ("u","viseme_U"), ("ʊ","viseme_U"),
   ("ə","viseme_E"), ("ʌ","viseme_E"), ("ɚ","viseme_E"), ("ɝ","viseme_E")]

/-- DIPHTHONGS set (includes the two affricates). -/
def DIPHTHONGS : List String :=
  ["aɪ","eɪ","oʊ","aʊ","ɔɪ","ɪə","eə","ʊə","tʃ","dʒ"]

/-- VOWELS helper set (single characters). -/
def VOWELS : List Char :=
  ['a','æ','ɑ','ɐ','ɒ','e','ɛ','i','ɪ','o','ɔ','u','ʊ','ə','ʌ','ɜ','ɚ','ɝ']

/-- RHOTICS helper set. -/
def RHOTICS : List Char := ['r','ɹ']

/-- KOKORO_UPPER_FIXES plus the generic toLowerCase fallback of step 7 of
normalizePhonemeString. -/
def kokoroUpperFix (c : Char) : Char :=
  if c = 'O' then 'o' else if c = 'W' then 'w' else if c = 'A' then 'a'
  else if c = 'E' then 'e' else if c = 'I' then 'i' else if c = 'U' then 'u'
  else if c = 'Y' then 'y' else c.toLower

/-- The combining-mark class stripped in step 6, modelled by the Unicode
combining-diacritic blocks relevant to IPA input. -/
def isCombiningMark (c : Char) : Bool :=
  (0x300 ≤ c.toNat && c.toNat ≤ 0x36F) ||
  (0x1AB0 ≤ c.toNat && c.toNat ≤ 0x1AFF) ||
  (0x1DC0 ≤ c.toNat && c.toNat ≤ 0x1DFF) ||
  (0x20D0 ≤ c.toNat && c.toNat ≤ 0x20FF) ||
  (0xFE20 ≤ c.toNat && c.toNat ≤ 0xFE2F)

/-- normalizePhonemeString: NFC (identity here), Kokoro/ASCII fixes,
r-colored vowel expansion, stress/length/tie-bar/diacritic removal,
uppercase fixes and whitespace removal, as in phonemeConvert. -/
def normalizePhonemeString (s : String) : String :=
  let l1 := s.data.map (fun c => if c = 'ɡ' then 'g' else c)
  let l2 := l1.flatMap (fun c => if c = 'ʧ' then ['t','ʃ'] else [c])
  let l3 := l2.flatMap (fun c => if c = 'ʤ' then ['d','ʒ'] else [c])
  let l4 := l3.flatMap (fun c => if c = 'ɚ' then ['ə','ɹ'] else [c])
  let l5 := l4.flatMap (fun c => if c = 'ɝ' then ['ɜ','ɹ'] else [c])
  let l6 := l5.filter (fun c => !(c = 'ˈ' || c = 'ˌ' || c = '.'))
  let l7 := l6.filter (fun c => !(c = 'ː'))
  let l8 := l7.filter (fun c => !(c.toNat = 0x361 || c.toNat = 0x35C))
  let l9 := l8.filter (fun c => !(isCombiningMark c))
  let l10 := l9.map (fun c => if 'A' ≤ c ∧ c ≤ 'Z' then kokoroUpperFix c else c)
  let l11 := l10.filter (fun c => !c.isWhitespace)
  String.mk l11

/-- The punctuation/safety class skipped by the tokenizer loop. -/
def isPunctSkipChar (c : Char) : Bool :=
  c.isWhitespace || c = ',' || c = ';' || c = ':' || c = '!' || c = '?' || c = '-'

/-- The index loop of tokenizeIPA: prefer 2-character diphthong/affricate
and vowel+rhotic sequences, skip punctuation, else a single character. -/
def tokenizeLoop : List Char → List String
  | [] => []
  | [ch] => if isPunctSkipChar ch then [] else [String.mk [ch]]
  | ch :: next :: rest =>
    if DIPHTHONGS.contains (String.mk [ch, next]) then
      String.mk [ch, next] :: tokenizeLoop rest
    else if VOWELS.contains ch && RHOTICS.contains next then
      String.mk [ch, next] :: tokenizeLoop rest
    else if isPunctSkipChar ch then tokenizeLoop (next :: rest)
    else String.mk [ch] :: tokenizeLoop (next :: rest)

/-- tokenizeIPA from phonemeConvert. -/
def tokenizeIPA (s : String) : List String :=
  tokenizeLoop (normalizePhonemeString s).data

/-- resolveTokenToVisemes from phonemeConvert, including the fall-through
behaviour when a diphthong half or vowel+rhotic vowel has no map entry. -/
def resolveTokenToVisemes (t : String) : List String :=
  let diph : Option (List String) :=
    if DIPHTHONGS.contains t then
      if t = "tʃ" then some ["viseme_CH"]
      else if t = "dʒ" then some ["viseme_CH"]
      else
        match t.data with
        | c1 :: c2 :: _ =>
          match List.lookup (String.mk [c1]) vMap, List.lookup (String.mk [c2]) vMap with
          | some a, some b => some [a, b]
          | _, _ => none
        | _ => none
    else none
  match diph with
  | some r => r
  | none =>
    let vr : Option (List String) :=
      match t.data with
      | [c1, c2] =>
        if VOWELS.contains c1 && RHOTICS.contains c2 then
          match List.lookup (String.mk [c1]) vMap with
          | some v => some [v, "viseme_RR"]
          | none => none
        else none
      | _ => none
    match vr with
    | some r => r
    | none =>
      match List.lookup t cMap with
      | some c => [c]
      | none =>
        match List.lookup t vMap with
        | some v => [v]
        | none => ["viseme_E"]

/-- DROPPABLE weak phones. -/
def DROPPABLE : List String := ["h","ɾ","ʔ"]

/-- LABIALS strong closures. -/
def LABIALS : List String := ["p","b","m"]

/-- AFFRIC set. -/
def AFFRIC : List String := ["tʃ","dʒ"]

/-- SIBILANTS set. -/
def SIBILANTS : List String := ["s","z","ʃ","ʒ","f","v","θ","ð"]

/-- LIQUIDS set. -/
def LIQUIDS : List String := ["l","r","ɹ"]

/-- NASALS set. -/
def NASALS : List String := ["n","ŋ"]

/-- isVowelToken from phonemeConvert: a V_MAP token, or a token whose first
character is in V_MAP followed by nothing or a rhotic. -/
def isVowelToken (t : String) : Bool :=
  (List.lookup t vMap).isSome ||
    (match t.data with
     | [] => false
     | c :: rest =>
       (List.lookup (String.mk [c]) vMap).isSome &&
         (match rest with
          | [] => true
          | c2 :: _ => c2 = 'ɹ' || c2 = 'r'))

/-- tokenPriority from phonemeConvert. -/
def tokenPriority (t : String) : ℚ :=
  if AFFRIC.contains t then 3
  else if isVowelToken t then 3
  else if LABIALS.contains t then 5/2
  else if SIBILANTS.contains t then 9/5
  else if NASALS.contains t then 8/5
  else if LIQUIDS.contains t then 7/5
  else if (List.lookup t cMap).isSome then 17/10
  else 1

/-- The removal score of the compression loop: priority plus 100 for
vowel-ish tokens, which makes vowels expensive to drop. -/
def dropScore (t : String) : ℚ :=
  tokenPriority t + (if isVowelToken t then 100 else 0)

/-- Index of the first strict minimum of dropScore, mirroring the
`score < best` scan of compressTokens (none on an empty list). -/
def argminIdx (l : List String) : Option ℕ :=
  (l.enum.foldl
    (fun acc p =>
      match acc with
      | none => some (p.1, dropScore p.2)
      | some (bi, bs) =>
        if dropScore p.2 < bs then some (p.1, dropScore p.2) else some (bi, bs))
    none).map (fun p => p.1)

/-- The `while (out.length > target)` removal loop of compressTokens,
with fuel equal to the list length (each pass removes one element). -/
def dropLoop : ℕ → List String → ℤ → List String
  | 0, out, _ => out
  | Nat.succ fuel, out, target =>
    if (out.length : ℤ) > target then
      match argminIdx out with
      | some i => dropLoop fuel (out.eraseIdx i) target
      | none => out
    else out

/-- compressTokens from phonemeConvert.  Note: the droppable filter tests
`out.length > KEEP_AT_LEAST` against the array captured by the closure,
whose length does not change while filter runs, exactly as in JavaScript. -/
def compressTokens (tokens : List String) (span : ℚ) : List String :=
  if tokens = [] then tokens
  else if span / (tokens.length : ℚ) ≥ MIN_SLOT ∧ tokens.length ≤ WORD_EVENT_CAP then tokens
  else
    let out0 := tokens
    let out1 :=
      if out0.length > KEEP_AT_LEAST then
        out0.filter (fun t => !(DROPPABLE.contains t && decide (out0.length > KEEP_AT_LEAST)))
      else out0
    let targetByTime : ℤ := max (KEEP_AT_LEAST : ℤ) ⌈span / MIN_SLOT⌉
    let target : ℤ := min (WORD_EVENT_CAP : ℤ) targetByTime
    dropLoop out1.length out1 target

/-- wordToVisemeEvents from phonemeConvert: tokenize, compress, split the
span into ≥100ms slots, emit one event per single-shape token and two
overlapped half events per two-shape token, then clamp onsets into the
word span. -/
def wordToVisemeEvents (w : WordTiming) : List VisemeEvent :=
  let tokensRaw := tokenizeIPA w.phoneme
  let span := max 0 (w.«end» - w.start)
  if tokensRaw = [] ∨ span ≤ 0 then []
  else
    let tokens := compressTokens tokensRaw span
    let slot := max MIN_SLOT (span / (tokens.length : ℚ))
    let evs := tokens.enum.flatMap (fun p =>
      let base := w.start + (p.1 : ℚ) * slot
      let e := min w.«end» (base + slot)
      let names0 := resolveTokenToVisemes p.2
      let names := if names0 = [] then ["viseme_E"] else names0
      (match names with
      | [n] =>
        let dur := max MIN_DUR (min MAX_DUR (e - base))
        if dur > 0 then [⟨base, n, dur, 1, ATTACK, DECAY⟩] else []
      | n1 :: n2 :: _ =>
        let half := (e - base) / 2
        let durHalf := max (MIN_DUR * (3/4)) (min (MAX_DUR * (3/4)) half)
        if durHalf > 0 then
          [⟨base, n1, durHalf, 1, ATTACK, DECAY⟩,
           ⟨base + half * SPLIT_OVERLAP, n2, durHalf, 1, ATTACK, DECAY⟩]
        else []
      | [] => [] : List VisemeEvent))
    evs.map (fun ev =>
      let a1 := if ev.«at» < w.start then w.start else ev.«at»
      let a2 := if a1 > w.«end» then w.«end» else a1
      { ev with «at» := a2 })

/-- Math.min over a nonempty list (the empty case is unreachable behind
the nonemptiness guards of the normalizer). -/
def listMin : List ℚ → ℚ
  | [] => 0
  | x :: xs => xs.foldl min x

/-- Math.max over a nonempty list. -/
def listMax : List ℚ → ℚ
  | [] => 0
  | x :: xs => xs.foldl max x

/-- normalizeWordsToAbsolute from phonemeConvert, with segStateRef passed
explicitly.  Non-finite entries cannot arise over ℚ, so the sanitize
step reduces to the inverted-interval filter. -/
def normalizeWordsToAbsolute (seg : SegState) (words : List WordTiming) :
    SegState × List WordTiming :=
  if words = [] then (seg, [])
  else
    let clean := words.filter (fun w => decide (w.«end» ≥ w.start))
    if clean = [] then (seg, [])
    else
      let localMin := listMin (clean.map (fun w => w.start))
      let localMax := listMax (clean.map (fun w => w.«end»))
      let candAbsMin := seg.segOffset + localMin
      let seg1 :=
        if candAbsMin + EPS < seg.lastAbsEnd then
          if seg.lastAbsEnd - candAbsMin > HARD_RESET_BACKSTEP then
            { seg with segOffset := seg.lastAbsEnd + GAP_PAD }
          else
            { seg with segOffset := seg.segOffset + (seg.lastAbsEnd - candAbsMin) + GAP_PAD }
        else seg
      let adjusted := clean.map (fun w =>
        { w with start := w.start + seg1.segOffset, «end» := w.«end» + seg1.segOffset })
      ({ seg1 with lastAbsEnd := max seg1.lastAbsEnd (seg1.segOffset + localMax) }, adjusted)

/-- Math.round, which rounds half toward positive infinity. -/
def jsRound (q : ℚ) : ℤ := ⌊q + 1/2⌋

/-- makeEventKey: viseme name plus the 10ms bucket of the onset. -/
def makeEventKey (ev : VisemeEvent) : EventKey :=
  (ev.name, jsRound (ev.«at» / BUCKET))

/-- Step 1 of decimateTimeline: merge an incoming event into the last
accumulated event when names match within MERGE_SAME_GAP (the accumulator
is kept reversed). -/
def mergeStep (accRev : List VisemeEvent) (e : VisemeEvent) : List VisemeEvent :=
  match accRev with
  | [] => [e]
  | last :: rest =>
    if last.name = e.name ∧ e.«at» - (last.«at» + last.duration) ≤ MERGE_SAME_GAP then
      { last with
        duration := max (last.«at» + last.duration) (e.«at» + e.duration) - last.«at»,
        peak := max last.peak e.peak } :: rest
    else e :: last :: rest

/-- The visibility score of the rate limiter.  It looks the event NAME up
in V_MAP, whose keys are phonemes, exactly as the source does. -/
def prefer (name : String) : ℚ :=
  (if (List.lookup name vMap).isSome then 2 else 0) +
  (if name = "viseme_CH" then 3/2 else 0) +
  (if name = "viseme_PP" then 1 else 0)

/-- Step 2 of decimateTimeline: rate limiting with conflict resolution.
State: kept events (reversed) and the last accepted onset (none models
the initial -Infinity).  On conflict the incoming event replaces the
previous one only when its score is strictly higher, else it is dropped. -/
def rateStep (st : List VisemeEvent × Option ℚ) (e : VisemeEvent) :
    List VisemeEvent × Option ℚ :=
  match st with
  | ([], _) => ([e], some e.«at»)
  | (prev :: rest, none) => (e :: prev :: rest, some e.«at»)
  | (prev :: rest, some la) =>
    if MIN_EVENT_GAP ≤ e.«at» - la then (e :: prev :: rest, some e.«at»)
    else if prefer prev.name < prefer e.name then (e :: rest, some e.«at»)
    else (prev :: rest, some la)

/-- decimateTimeline from phonemeConvert. -/
def decimateTimeline (events : List VisemeEvent) : List VisemeEvent :=
  if events.length ≤ 1 then events
  else
    let merged := (events.foldl mergeStep []).reverse
    (merged.foldl rateStep ([], none)).1.reverse

/-- The word-skip test of pushWordsToTimeline: empty or punctuation-only. -/
def isWordSkipChar (c : Char) : Bool :=
  c.isWhitespace || c = ',' || c = '.' || c = ';' || c = ':' || c = '!' || c = '?' || c = '-'

/-- True when pushWordsToTimeline ignores the word. -/
def skipWord (w : WordTiming) : Bool :=
  w.word.data.all isWordSkipChar

/-- One event insertion of pushWordsToTimeline: drop when the dedup key has
been seen, else record the key and append the event. -/
def pushEv (st : List EventKey × List VisemeEvent) (ev : VisemeEvent) :
    List EventKey × List VisemeEvent :=
  if makeEventKey ev ∈ st.1 then st else (makeEventKey ev :: st.1, st.2 ++ [ev])

/-- Per-word body of pushWordsToTimeline's loop. -/
def pushWord (st : List EventKey × List VisemeEvent) (w : WordTiming) :
    List EventKey × List VisemeEvent :=
  if skipWord w then st else (wordToVisemeEvents w).foldl pushEv st

/-- Stable sort of a word batch by start time (Array.prototype.sort with a
numeric comparator is stable). -/
def sortByStart (l : List WordTiming) : List WordTiming :=
  @List.insertionSort WordTiming (fun a b => a.start ≤ b.start)
    (fun a b => inferInstanceAs (Decidable (a.start ≤ b.start))) l

/-- Stable sort of the pending queue by onset. -/
def sortByAt (l : List VisemeEvent) : List VisemeEvent :=
  @List.insertionSort VisemeEvent (fun a b => a.«at» ≤ b.«at»)
    (fun a b => inferInstanceAs (Decidable (a.«at» ≤ b.«at»))) l

/-- pushWordsToTimeline from phonemeConvert, with the dedup set and
pending queue passed explicitly: sort the batch, insert unseen events,
then sort and decimate the queue. -/
def pushWordsToTimeline (st : List EventKey × List VisemeEvent)
    (wordsAbs : List WordTiming) : List EventKey × List VisemeEvent :=
  if wordsAbs = [] then st
  else
    let st1 := (sortByStart wordsAbs).foldl pushWord st
    (st1.1, decimateTimeline (sortByAt st1.2))

/-- onWordTiming's already-playing path (t0Ref set): normalize the batch
then push it to the timeline. -/
def deliverWords (seg : SegState) (st : List EventKey × List VisemeEvent)
    (ws : List WordTiming) :
    SegState × (List EventKey × List VisemeEvent) :=
  let r := normalizeWordsToAbsolute seg ws
  (r.1, pushWordsToTimeline st r.2)

/-- The mutable lip-sync state shared through hooks/constantsLipsync:
anchor time, pending queue, active envelopes, segment state, dedup set
and the pre-roll word queue. -/
structure LipsyncState where
  t0 : Option ℚ
  pending : List VisemeEvent
  active : List ActiveEnv
  segState : SegState
  seen : List EventKey
  wordQueue : List WordTiming

/-- onPlaybackStopped from UseTTS.tsx: unset the anchor, clear pending
events and active envelopes, reset segment state, clear the dedup set.
It does not touch wordQueueRef. -/
def onPlaybackStopped (s : LipsyncState) : LipsyncState :=
  { s with t0 := none, pending := [], active := [], segState := ⟨0, 0⟩, seen := [] }

/-- envValueFromCountdown from AvatarLipSync.tsx: attack, sustain, decay. -/
def envValueFromCountdown (env : ActiveEnv) : ℚ :=
  let elapsed := env.total - env.timeLeft
  if elapsed ≤ 0 ∨ env.total ≤ 0 then 0
  else if elapsed < env.attack then (elapsed / max (1/1000000) env.attack) * env.peak
  else if elapsed < env.attack + max 0 (env.total - env.attack - env.decay) then env.peak
  else
    max 0 (env.peak *
      (1 - (elapsed - (env.attack + max 0 (env.total - env.attack - env.decay)))
            / max (1/1000000) env.decay))

/-- perVisemeGain from AvatarLipSync.tsx, with the `?? 1` default. -/
def perVisemeGain (n : String) : ℚ :=
  match n with
  | "viseme_PP" => 1
  | "viseme_aa" => 19/20
  | "viseme_I" => 19/20
  | "viseme_O" => 19/20
  | "viseme_U" => 19/20
  | "viseme_E" => 19/20
  | "viseme_SS" => 4/5
  | "viseme_FF" => 4/5
  | "viseme_RR" => 3/5
  | "viseme_DD" => 9/10
  | "viseme_kk" => 9/10
  | "viseme_CH" => 17/20
  | "viseme_nn" => 9/10
  | _ => 1

/-- Insert-or-overwrite on the ordered association list modelling the
frame's byName Map. -/
def mapSet (m : List (String × ℚ)) (k : String) (v : ℚ) : List (String × ℚ) :=
  match m with
  | [] => [(k, v)]
  | e :: rest => if e.1 = k then (k, v) :: rest else e :: mapSet rest k v

/-- Map.get with the `?? 0` default. -/
def mapGetD (m : List (String × ℚ)) (k : String) : ℚ :=
  (List.lookup k m).getD 0

/-- One envelope's contribution to the byName aggregation of useFrame in
AvatarLipSync.tsx: skip non-positive values, apply the per-shape gain
under the MORPH_CAP ceiling, keep the per-shape maximum. -/
def frameStep (byName : List (String × ℚ)) (env : ActiveEnv) : List (String × ℚ) :=
  if envValueFromCountdown env ≤ 0 then byName
  else if mapGetD byName env.name <
      min MORPH_CAP (envValueFromCountdown env * perVisemeGain env.name) then
    mapSet byName env.name
      (min MORPH_CAP (envValueFromCountdown env * perVisemeGain env.name))
  else byName

/-- The per-frame shape-name → intensity mapping written to the rendering
sink (step 2 and 3 of useFrame). -/
def frameIntensities (envs : List ActiveEnv) : List (String × ℚ) :=
  envs.foldl frameStep []

/-! Helper lemmas. -/

theorem mapSet_mem {m : List (String × ℚ)} {k : String} {v : ℚ} {p : String × ℚ}
    (hp : p ∈ mapSet m k v) : p = (k, v) ∨ p ∈ m := by
  induction m with
  | nil =>
    simp only [mapSet, List.mem_singleton] at hp
    exact Or.inl hp
  | cons e rest ih =>
    unfold mapSet at hp
    split at hp
    · rcases List.mem_cons.mp hp with h | h
      · exact Or.inl h
      · exact Or.inr (List.mem_cons_of_mem _ h)
    · rcases List.mem_cons.mp hp with h | h
      · exact Or.inr (h ▸ List.mem_cons_self _ _)
      · rcases ih h with h2 | h2
        · exact Or.inl h2
        · exact Or.inr (List.mem_cons_of_mem _ h2)

theorem perVisemeGain_nonneg (n : String) : 0 ≤ perVisemeGain n := by
  unfold perVisemeGain
  split <;> norm_num

theorem frameStep_bounds (envs : List ActiveEnv) (acc : List (String × ℚ))
    (hacc : ∀ p ∈ acc, 0 ≤ p.2 ∧ p.2 ≤ MORPH_CAP) :
    ∀ p ∈ List.foldl frameStep acc envs, 0 ≤ p.2 ∧ p.2 ≤ MORPH_CAP := by
  induction envs generalizing acc with
  | nil => simpa using hacc
  | cons env rest ih =>
    intro p hp
    rw [List.foldl_cons] at hp
    refine ih (frameStep acc env) ?_ p hp
    intro q hq
    unfold frameStep at hq
    split at hq
    · exact hacc q hq
    · next hv =>
      split at hq
      · rcases mapSet_mem hq with h | h
        · rw [h]
          refine ⟨le_min (by norm_num [MORPH_CAP]) ?_, min_le_left _ _⟩
          exact mul_nonneg (le_of_lt (not_le.mp hv)) (perVisemeGain_nonneg _)
        · exact hacc q h
      · exact hacc q hq

/-! Claim theorems. -/

/-- Claim C1, counterexample: after onPlaybackStopped runs on a state whose
pre-roll word queue holds one word, the pre-roll queue is still non-empty,
so not every per-segment collection is cleared by the stop handler. -/
theorem stop_handler_keeps_preroll_queue :
    (onPlaybackStopped
        ⟨some 0, [], [], ⟨0, 0⟩, [], [⟨"cat", "kæt", 0, 3/10⟩]⟩).wordQueue ≠ [] := by
  with_unfolding_all decide

/-- Claim C1, amended: onPlaybackStopped unsets the anchor time, empties the
pending queue, the active set and the dedup set, and resets SegmentState to
zero, but it leaves the pre-roll word queue untouched (that queue is only
drained on playback start). -/
theorem stop_handler_clears_all_but_preroll (s : LipsyncState) :
    onPlaybackStopped s =
      { t0 := none, pending := [], active := [], segState := ⟨0, 0⟩, seen := [],
        wordQueue := s.wordQueue } := rfl

/-- Claim C2, code bug: a token list of three weak tokens with a 200ms span
enters compression (the even-split slot is below the 100ms minimum), and the
droppable filter removes all three because its length guard reads the
captured pre-filter array, returning zero tokens although the original count
was at least 2 and the KEEP_AT_LEAST comment promises never to drop below 2. -/
theorem compressTokens_drops_below_two :
    (["h", "h", "h"] : List String).length ≥ 2 ∧
    ¬ ((1:ℚ)/5 / (3:ℚ) ≥ MIN_SLOT) ∧
    compressTokens ["h", "h", "h"] (1/5) = [] := by
  with_unfolding_all decide

/-- Claim C4, code bug: the rate limiter's visibility score looks the event
NAME up in V_MAP, whose keys are phonemes, so every vowel viseme scores 0;
in a conflict (50ms apart, below the 100ms minimum gap) between a kept
sibilant event and an incoming vowel event the vowel loses and is dropped,
although the claim says vowel visemes rank highest and win. -/
theorem curator_vowel_event_loses_conflict :
    prefer "viseme_aa" = 0 ∧
    (decimateTimeline
        [⟨0, "viseme_SS", 1/10, 1, 3/100, 1/25⟩,
         ⟨1/20, "viseme_aa", 1/10, 1, 3/100, 1/25⟩]).map (fun e => e.name) =
      ["viseme_SS"] := by
  with_unfolding_all decide

/-- Claim C5: the word cat with phoneme kæt over [0, 0.3] tokenizes to
[k, æ, t] and the allocator emits exactly viseme_kk at 0.0, viseme_aa at
0.1 and viseme_DD at 0.2, each 100ms long. -/
theorem cat_scenario_events :
    tokenizeIPA "kæt" = ["k", "æ", "t"] ∧
    (wordToVisemeEvents ⟨"cat", "kæt", 0, 3/10⟩).map
        (fun e => (e.name, e.«at», e.duration)) =
      [("viseme_kk", 0, 1/10), ("viseme_aa", 1/10, 1/10), ("viseme_DD", 1/5, 1/10)] := by
  with_unfolding_all decide

/-- Claim C6: on every Scheduler frame, each per-shape intensity in the
byName aggregation written to the rendering sink lies between 0 and the
MORPH_CAP gain ceiling, for every set of active envelopes. -/
theorem scheduler_intensity_bounded (envs : List ActiveEnv) (p : String × ℚ)
    (hp : p ∈ frameIntensities envs) : 0 ≤ p.2 ∧ p.2 ≤ MORPH_CAP :=
  frameStep_bounds envs [] (by simp) p hp

/-- Witness for scheduler_intensity_bounded: one sustained vowel envelope
produces the entry (viseme_aa, 9/10), which the theorem bounds. -/
theorem scheduler_intensity_bounded_witness :
    0 ≤ (("viseme_aa", (9:ℚ)/10) : String × ℚ).2 ∧
    (("viseme_aa", (9:ℚ)/10) : String × ℚ).2 ≤ MORPH_CAP :=
  scheduler_intensity_bounded [⟨"viseme_aa", 1/20, 1/10, 1, 3/100, 1/25⟩]
    ("viseme_aa", 9/10) (by with_unfolding_all decide)

/-- Claim C3, counterexample: delivering the identical one-word batch twice
within one segment (no stop in between) grows the pending queue from three
events to six: the normalizer re-stitches the second delivery 330ms later, so
its dedup keys are new and three duplicate events are scheduled. -/
theorem second_delivery_adds_new_events :
    (deliverWords ⟨0, 0⟩ ([], []) [⟨"cat", "kæt", 0, 3/10⟩]).2.2.length = 3 ∧
    (deliverWords (deliverWords ⟨0, 0⟩ ([], []) [⟨"cat", "kæt", 0, 3/10⟩]).1
        (deliverWords ⟨0, 0⟩ ([], []) [⟨"cat", "kæt", 0, 3/10⟩]).2
        [⟨"cat", "kæt", 0, 3/10⟩]).2.2.length = 6 := by
  with_unfolding_all decide

/-- Claim C7, counterexample: with segment state (segOffset 1, lastAbsEnd 0)
the single-word batch at [0, 0] is non-regressing (its candidate absolute
start 1 does not precede lastAbsEnd), yet re-normalizing is not a no-op: the
word is shifted by the stored offset and lastAbsEnd is updated. -/
theorem normalizer_not_idempotent :
    ¬ ((⟨1, 0⟩ : SegState).segOffset +
        listMin ([(⟨"a", "a", 0, 0⟩ : WordTiming)].map (fun w => w.start)) + EPS <
        (⟨1, 0⟩ : SegState).lastAbsEnd) ∧
    normalizeWordsToAbsolute ⟨1, 0⟩ [⟨"a", "a", 0, 0⟩] ≠
      (⟨1, 0⟩, [⟨"a", "a", 0, 0⟩]) := by
  with_unfolding_all decide

/-- Claim C8: after every normalizer call, the stored lastAbsEnd is at least
its value before the call, on every state and every input batch. -/
theorem lastAbsEnd_nondecreasing (seg : SegState) (ws : List WordTiming) :
    seg.lastAbsEnd ≤ (normalizeWordsToAbsolute seg ws).1.lastAbsEnd := by
  unfold normalizeWordsToAbsolute
  split
  · exact le_refl _
  · dsimp only
    split
    · exact le_refl _
    · split
      · split <;> simp [le_max_left]
      · simp [le_max_left]

/-- Claim C10: the normalizer keeps exactly the valid words (end at least
start), in order, changing only their start and end fields by the one
common offset stored in the returned segment state. -/
theorem normalizer_shifts_survivors_uniformly (seg : SegState) (ws : List WordTiming) :
    (normalizeWordsToAbsolute seg ws).2 =
      (ws.filter (fun w => decide (w.«end» ≥ w.start))).map
        (fun w => { w with
          start := w.start + (normalizeWordsToAbsolute seg ws).1.segOffset,
          «end» := w.«end» + (normalizeWordsToAbsolute seg ws).1.segOffset }) := by
  unfold normalizeWordsToAbsolute
  split
  · next h => simp [h]
  · dsimp only
    split
    · next h => simp [h]
    · rfl

/-- Claim C7, amended: re-normalizing a non-regressing batch of valid words
is a complete no-op (words and segment state unchanged) precisely under the
extra conditions the counterexample forces: the stored segment offset is 0
(otherwise every word is shifted by it) and the batch's maximum end does not
exceed lastAbsEnd (otherwise lastAbsEnd is updated). -/
theorem normalizer_noop_on_covered_batch (seg : SegState) (ws : List WordTiming)
    (hoff : seg.segOffset = 0)
    (hvalid : ∀ w ∈ ws, w.«end» ≥ w.start)
    (hne : ws ≠ [])
    (hnoreg : ¬ (seg.segOffset + listMin (ws.map (fun w => w.start)) + EPS < seg.lastAbsEnd))
    (hcov : listMax (ws.map (fun w => w.«end»)) ≤ seg.lastAbsEnd) :
    normalizeWordsToAbsolute seg ws = (seg, ws) := by
  have hfil : ws.filter (fun w => decide (w.«end» ≥ w.start)) = ws :=
    List.filter_eq_self.mpr (fun w hw => decide_eq_true (hvalid w hw))
  unfold normalizeWordsToAbsolute
  rw [if_neg hne]
  dsimp only
  rw [hfil, if_neg hne, if_neg hnoreg]
  have hmap : ws.map (fun w =>
      { w with start := w.start + seg.segOffset, «end» := w.«end» + seg.segOffset }) = ws := by
    rw [hoff]
    simp
  rw [hmap]
  have hmax : max seg.lastAbsEnd (seg.segOffset + listMax (ws.map (fun w => w.«end»))) =
      seg.lastAbsEnd := by
    rw [hoff, zero_add]
    exact max_eq_left hcov
  rw [hmax]

/-- Witness for normalizer_noop_on_covered_batch at segment state (0, 1) and
the single word with start and end 1. -/
theorem normalizer_noop_witness :
    normalizeWordsToAbsolute ⟨0, 1⟩ [⟨"a", "a", 1, 1⟩] = (⟨0, 1⟩, [⟨"a", "a", 1, 1⟩]) :=
  normalizer_noop_on_covered_batch ⟨0, 1⟩ [⟨"a", "a", 1, 1⟩] rfl
    (by intro w hw; rw [List.mem_singleton] at hw; rw [hw])
    (by with_unfolding_all decide)
    (by with_unfolding_all decide)
    (by with_unfolding_all decide)

/-- Claim C9: in the rate limiter, when the incoming event conflicts with
the kept event (gap below MIN_EVENT_GAP) and the two visibility scores are
equal, the earlier kept event is retained unchanged and the incoming event
is dropped: the replacement test is strict. -/
theorem rate_limit_tie_keeps_earlier (prev e : VisemeEvent)
    (rest : List VisemeEvent) (la : ℚ)
    (hgap : ¬ MIN_EVENT_GAP ≤ e.«at» - la)
    (htie : prefer e.name = prefer prev.name) :
    rateStep (prev :: rest, some la) e = (prev :: rest, some la) := by
  unfold rateStep
  dsimp only
  rw [if_neg hgap, if_neg (by rw [htie]; exact lt_irrefl _)]

/-- Witness for rate_limit_tie_keeps_earlier: a kept sibilant event at 0 and
an incoming labiodental event 50ms later score 0 each, so the incoming one
is dropped. -/
theorem rate_limit_tie_keeps_earlier_witness :
    rateStep ([⟨0, "viseme_SS", 1/10, 1, 3/100, 1/25⟩], some 0)
        ⟨1/20, "viseme_FF", 1/10, 1, 3/100, 1/25⟩ =
      ([⟨0, "viseme_SS", 1/10, 1, 3/100, 1/25⟩], some 0) :=
  rate_limit_tie_keeps_earlier _ _ _ _
    (by with_unfolding_all decide) (by with_unfolding_all decide)

theorem pushEv_seen_mono (st : List EventKey × List VisemeEvent) (ev : VisemeEvent)
    (k : EventKey) (hk : k ∈ st.1) : k ∈ (pushEv st ev).1 := by
  unfold pushEv
  split
  · exact hk
  · exact List.mem_cons_of_mem _ hk

theorem foldl_pushEv_seen_mono (evs : List VisemeEvent)
    (st : List EventKey × List VisemeEvent) (k : EventKey) (hk : k ∈ st.1) :
    k ∈ (evs.foldl pushEv st).1 := by
  induction evs generalizing st with
  | nil => exact hk
  | cons e rest ih => exact ih _ (pushEv_seen_mono st e k hk)

theorem foldl_pushEv_key_mem (evs : List VisemeEvent)
    (st : List EventKey × List VisemeEvent) (ev : VisemeEvent) (hev : ev ∈ evs) :
    makeEventKey ev ∈ (evs.foldl pushEv st).1 := by
  induction evs generalizing st with
  | nil => cases hev
  | cons e rest ih =>
    rcases List.mem_cons.mp hev with h | h
    · subst h
      rw [List.foldl_cons]
      refine foldl_pushEv_seen_mono rest (pushEv st ev) _ ?_
      unfold pushEv
      split
      · assumption
      · exact List.mem_cons_self _ _
    · exact ih _ h

theorem pushWord_seen_mono (st : List EventKey × List VisemeEvent) (w : WordTiming)
    (k : EventKey) (hk : k ∈ st.1) : k ∈ (pushWord st w).1 := by
  unfold pushWord
  split
  · exact hk
  · exact foldl_pushEv_seen_mono _ _ _ hk

theorem foldl_pushWord_seen_mono (ws : List WordTiming)
    (st : List EventKey × List VisemeEvent) (k : EventKey) (hk : k ∈ st.1) :
    k ∈ (ws.foldl pushWord st).1 := by
  induction ws generalizing st with
  | nil => exact hk
  | cons w rest ih => exact ih _ (pushWord_seen_mono st w k hk)

theorem foldl_pushWord_keys (ws : List WordTiming)
    (st : List EventKey × List VisemeEvent) (w : WordTiming) (hw : w ∈ ws)
    (hskip : ¬ skipWord w = true) (ev : VisemeEvent) (hev : ev ∈ wordToVisemeEvents w) :
    makeEventKey ev ∈ (ws.foldl pushWord st).1 := by
  induction ws generalizing st with
  | nil => cases hw
  | cons x rest ih =>
    rcases List.mem_cons.mp hw with h | h
    · subst h
      rw [List.foldl_cons]
      refine foldl_pushWord_seen_mono rest (pushWord st w) _ ?_
      unfold pushWord
      rw [if_neg hskip]
      exact foldl_pushEv_key_mem _ _ _ hev
    · exact ih _ h

theorem foldl_pushEv_noop (evs : List VisemeEvent)
    (st : List EventKey × List VisemeEvent)
    (h : ∀ ev ∈ evs, makeEventKey ev ∈ st.1) : evs.foldl pushEv st = st := by
  induction evs with
  | nil => rfl
  | cons e rest ih =>
    rw [List.foldl_cons]
    have he : pushEv st e = st := by
      unfold pushEv
      rw [if_pos (h e (List.mem_cons_self e rest))]
    rw [he]
    exact ih (fun ev hev => h ev (List.mem_cons_of_mem _ hev))

theorem foldl_pushWord_noop (ws : List WordTiming)
    (st : List EventKey × List VisemeEvent)
    (h : ∀ w ∈ ws, ¬ skipWord w = true →
      ∀ ev ∈ wordToVisemeEvents w, makeEventKey ev ∈ st.1) :
    ws.foldl pushWord st = st := by
  induction ws with
  | nil => rfl
  | cons w rest ih =>
    rw [List.foldl_cons]
    have hw : pushWord st w = st := by
      unfold pushWord
      split
      · rfl
      · next hsk => exact foldl_pushEv_noop _ _ (h w (List.mem_cons_self w rest) hsk)
    rw [hw]
    exact ih (fun w' hw' => h w' (List.mem_cons_of_mem _ hw'))

theorem mergeStep_length (accRev : List VisemeEvent) (e : VisemeEvent) :
    (mergeStep accRev e).length ≤ accRev.length + 1 := by
  cases accRev with
  | nil => simp [mergeStep]
  | cons last rest =>
    unfold mergeStep
    dsimp only
    split <;> simp only [List.length_cons] <;> omega

theorem foldl_mergeStep_length (es accRev : List VisemeEvent) :
    (es.foldl mergeStep accRev).length ≤ accRev.length + es.length := by
  induction es generalizing accRev with
  | nil => simp
  | cons e rest ih =>
    rw [List.foldl_cons]
    have h1 := ih (mergeStep accRev e)
    have h2 := mergeStep_length accRev e
    simp only [List.length_cons]
    omega

theorem rateStep_length (st : List VisemeEvent × Option ℚ) (e : VisemeEvent) :
    ((rateStep st e).1).length ≤ st.1.length + 1 := by
  rcases st with ⟨keep, la⟩
  cases keep with
  | nil => simp [rateStep]
  | cons prev rest =>
    cases la with
    | none => simp [rateStep]
    | some q =>
      unfold rateStep
      dsimp only
      split
      · simp only [List.length_cons]; omega
      · split
        · simp only [List.length_cons]; omega
        · simp only [List.length_cons]; omega

theorem foldl_rateStep_length (es : List VisemeEvent) (st : List VisemeEvent × Option ℚ) :
    ((es.foldl rateStep st).1).length ≤ st.1.length + es.length := by
  induction es generalizing st with
  | nil => simp
  | cons e rest ih =>
    rw [List.foldl_cons]
    have h1 := ih (rateStep st e)
    have h2 := rateStep_length st e
    simp only [List.length_cons]
    omega

theorem decimateTimeline_length (events : List VisemeEvent) :
    (decimateTimeline events).length ≤ events.length := by
  unfold decimateTimeline
  split
  · exact le_refl _
  · dsimp only
    have h1 := foldl_mergeStep_length events []
    have h2 := foldl_rateStep_length ((events.foldl mergeStep []).reverse) ([], none)
    simp only [List.length_reverse, List.length_nil] at h1 h2 ⊢
    omega

theorem sortByAt_length (l : List VisemeEvent) : (sortByAt l).length = l.length :=
  (List.perm_insertionSort _ l).length_eq

/-- Claim C3, amended: pushing the same batch of absolute-timed words to the
timeline twice within one segment inserts nothing on the second push: every
event key generated from the batch is already in the dedup set, so the dedup
set is unchanged and the pending queue does not grow (the re-run merge and
rate-limit pass can only shrink it).  The claim as stated fails because a
redelivered batch is first re-shifted by the normalizer (see the
counterexample), so its keys are fresh and duplicates are scheduled. -/
theorem second_push_of_absolute_batch_adds_nothing
    (seen : List EventKey) (pending : List VisemeEvent) (ws : List WordTiming) :
    (pushWordsToTimeline (pushWordsToTimeline (seen, pending) ws) ws).1 =
      (pushWordsToTimeline (seen, pending) ws).1 ∧
    (pushWordsToTimeline (pushWordsToTimeline (seen, pending) ws) ws).2.length ≤
      (pushWordsToTimeline (seen, pending) ws).2.length := by
  by_cases hws : ws = []
  · subst hws
    simp [pushWordsToTimeline]
  · have hPush : ∀ st : List EventKey × List VisemeEvent, pushWordsToTimeline st ws =
        (((sortByStart ws).foldl pushWord st).1,
          decimateTimeline (sortByAt ((sortByStart ws).foldl pushWord st).2)) := by
      intro st
      rw [pushWordsToTimeline, if_neg hws]
    simp only [hPush]
    rw [foldl_pushWord_noop (sortByStart ws)
      (((sortByStart ws).foldl pushWord (seen, pending)).1,
        decimateTimeline (sortByAt ((sortByStart ws).foldl pushWord (seen, pending)).2))
      (fun w hw hs ev hev => foldl_pushWord_keys (sortByStart ws) (seen, pending) w hw hs ev hev)]
    refine ⟨rfl, ?_⟩
    calc (decimateTimeline (sortByAt (decimateTimeline
            (sortByAt ((sortByStart ws).foldl pushWord (seen, pending)).2)))).length
        ≤ (sortByAt (decimateTimeline
            (sortByAt ((sortByStart ws).foldl pushWord (seen, pending)).2))).length :=
          decimateTimeline_length _
      _ = (decimateTimeline
            (sortByAt ((sortByStart ws).foldl pushWord (seen, pending)).2)).length :=
          sortByAt_length _
